import Mathlib

/-!
Verification of the airline revenue-management repository.

The development shallowly embeds the two source modules:
dynamic_allocation (booking-limit / protection-level conversions and the
request-acceptance transition) and emsr (the EMSR-a, EMSR-b and EMSR-revise
heuristics).  Numbers are modelled as rationals; the two irrational numeric
primitives of the emsr module, the standard-normal quantile norm.ppf and
math.sqrt, are uninterpreted function parameters of the embedding, since the
properties under study do not depend on their values.  List indexing follows
the source language exactly: a lookup returns an Option that is none exactly
when the source raises IndexError, and negative indices count from the end.
-/

/-- Source-language list indexing: a non-negative index selects from the
front, a negative index counts from the end, and any index outside the range
from minus length to length minus one fails (none models IndexError). -/
def pyGet {α : Type} (l : List α) (i : ℤ) : Option α :=
  if 0 ≤ i then l[i.toNat]?
  else if 0 ≤ (l.length : ℤ) + i then l[((l.length : ℤ) + i).toNat]?
  else none

/-- Decision tag returned by request_seat; the source uses the strings
Accept and Reject. -/
inductive Status
  | Accept
  | Reject
deriving DecidableEq

/-- get_protection_levels from dynamic_allocation: max_demand is
booking_limit[0]; the result is [max_demand - item for item in
booking_limit[1:]] followed by max_demand.  The levels argument is unused by
the source body. -/
def get_protection_levels (booking_limit : List ℤ) (levels : ℤ) :
    Option (List ℤ) :=
  (pyGet booking_limit 0).map (fun max_demand =>
    ((booking_limit.drop 1).map (fun item => max_demand - item)) ++
      [max_demand])

/-- get_booking_limit from dynamic_allocation: max_demand is
res_lvl[levels-1]; the result is max_demand consed onto
[max_demand - item for item in res_lvl[0:-1]]. -/
def get_booking_limit (res_lvl : List ℤ) (levels : ℤ) : Option (List ℤ) :=
  (pyGet res_lvl (levels - 1)).map (fun max_demand =>
    max_demand :: (res_lvl.dropLast.map (fun item => max_demand - item)))

/-- request_seat from dynamic_allocation: the status is Reject when
booking_limit[seat_class] < seats_num and Accept otherwise; on Accept every
entry item becomes item - seats_num when item > seats_num and 0 otherwise;
the level argument is unused by the source body. -/
def request_seat (booking_limit : List ℤ) (level seat_class : ℤ)
    (seats_num : ℤ) : Option (List ℤ × Status) :=
  (pyGet booking_limit seat_class).map (fun limit_at_class =>
    let status := if limit_at_class < seats_num then Status.Reject
      else Status.Accept
    let booking_limit := if status = Status.Accept
      then booking_limit.map
        (fun item => if item > seats_num then item - seats_num else 0)
      else booking_limit
    (booking_limit, status))

/-- calculate_protect_single_item from emsr: scalar_mu + scalar_sigma *
norm.ppf(prob).  The standard-normal quantile norm.ppf takes irrational
values, so it is an explicit function parameter ppf of the embedding. -/
def calculate_protect_single_item (ppf : ℚ → ℚ)
    (scalar_mu scalar_sigma prob : ℚ) : ℚ :=
  scalar_mu + scalar_sigma * ppf prob

/-- calculate_protect_revenue_a from emsr: the sum over i in range(j+1) of
the single-item value at probability 1 - demand_prices[j+1]/demand_prices[i],
then min with cap.  List entries are read with getD and default 0; every
claim under study stays within bounds, where getD agrees with the source
indexing. -/
def calculate_protect_revenue_a (ppf : ℚ → ℚ) (j : ℕ)
    (mu sigma demand_prices : List ℚ) (cap : ℚ) : ℚ :=
  min (((List.range (j + 1)).map (fun i =>
    calculate_protect_single_item ppf (mu.getD i 0) (sigma.getD i 0)
      (1 - demand_prices.getD (j + 1) 0 / demand_prices.getD i 0))).sum) cap

/-- emsr_a from emsr: one entry per j in range(demand_classes - 1). -/
def emsr_a (ppf : ℚ → ℚ) (mu sigma demand_prices : List ℚ)
    (demand_classes : ℕ) (cap : ℚ) : List ℚ :=
  (List.range (demand_classes - 1)).map (fun j =>
    calculate_protect_revenue_a ppf j mu sigma demand_prices cap)

/-- The value calculate_protect_revenue_b from emsr computes before the min
with cap: the aggregate class over ranks below j (new_mu the summed means,
new_sigma the square root of the summed squared deviations, new_price the
demand-weighted mean fare) fed to the single item at probability
1 - demand_prices[j]/new_price.  math.sqrt is irrational, so it is the
function parameter sqrt of the embedding. -/
def precap_b (ppf sqrt : ℚ → ℚ) (j : ℕ)
    (mu sigma demand_prices : List ℚ) : ℚ :=
  let new_mu := (mu.take j).sum
  let new_sigma := sqrt (((sigma.take j).map (fun item => item * item)).sum)
  let new_price := (((mu.take j).zip (demand_prices.take j)).map
    (fun p => p.1 * p.2 / new_mu)).sum
  calculate_protect_single_item ppf new_mu new_sigma
    (1 - demand_prices.getD j 0 / new_price)

/-- calculate_protect_revenue_b from emsr: min of cap and the aggregate
single-item value. -/
def calculate_protect_revenue_b (ppf sqrt : ℚ → ℚ) (j : ℕ)
    (mu sigma demand_prices : List ℚ) (cap : ℚ) : ℚ :=
  min cap (precap_b ppf sqrt j mu sigma demand_prices)

/-- emsr_b from emsr: one entry per j in range(1, demand_classes). -/
def emsr_b (ppf sqrt : ℚ → ℚ) (mu sigma demand_prices : List ℚ)
    (demand_classes : ℕ) (cap : ℚ) : List ℚ :=
  (List.range' 1 (demand_classes - 1)).map (fun j =>
    calculate_protect_revenue_b ppf sqrt j mu sigma demand_prices cap)

/-- The value calculate_protect_revenue_revise from emsr computes before the
min with cap: the same aggregation as in the b variant, with the single-item
value divided by (1 - alpha). -/
def precap_revise (ppf sqrt : ℚ → ℚ) (j : ℕ)
    (mu sigma demand_prices : List ℚ) (alpha : ℚ) : ℚ :=
  let new_mu := (mu.take j).sum
  let new_sigma := sqrt (((sigma.take j).map (fun item => item * item)).sum)
  let new_price := (((mu.take j).zip (demand_prices.take j)).map
    (fun p => p.1 * p.2 / new_mu)).sum
  calculate_protect_single_item ppf new_mu new_sigma
    (1 - demand_prices.getD j 0 / new_price) / (1 - alpha)

/-- calculate_protect_revenue_revise from emsr: min of cap and the
alpha-adjusted aggregate single-item value. -/
def calculate_protect_revenue_revise (ppf sqrt : ℚ → ℚ) (j : ℕ)
    (mu sigma demand_prices : List ℚ) (cap alpha : ℚ) : ℚ :=
  min cap (precap_revise ppf sqrt j mu sigma demand_prices alpha)

/-- emsr_revise from emsr: one entry per j in range(1, demand_classes). -/
def emsr_revise (ppf sqrt : ℚ → ℚ) (mu sigma demand_prices : List ℚ)
    (demand_classes : ℕ) (cap alpha : ℚ) : List ℚ :=
  (List.range' 1 (demand_classes - 1)).map (fun j =>
    calculate_protect_revenue_revise ppf sqrt j mu sigma demand_prices cap
      alpha)

/-- A computable stand-in for the standard-normal quantile, agreeing with it
in sign: negative below probability one half, zero from one half on.  The
value -2326/1000 approximates the quantile at probability 1/100. -/
def ppf_approx : ℚ → ℚ :=
  fun p => if p < 1 / 2 then -2326 / 1000 else 0

/-! ### Helper lemmas about source-language indexing -/

theorem getD_of_lt {α : Type} (l : List α) (n : ℕ) (d : α)
    (h : n < l.length) : l.getD n d = l[n] := by
  rw [List.getD_eq_getElem?_getD, List.getElem?_eq_getElem h, Option.getD_some]

theorem pyGet_of_nonneg {α : Type} (l : List α) (i : ℤ) (d : α) (h0 : 0 ≤ i)
    (h1 : i < (l.length : ℤ)) : pyGet l i = some (l.getD i.toNat d) := by
  have hn : i.toNat < l.length := by omega
  rw [pyGet, if_pos h0, List.getElem?_eq_getElem hn, getD_of_lt l i.toNat d hn]

theorem pyGet_zero {α : Type} (l : List α) (h : l ≠ []) :
    pyGet l 0 = some (l.head h) := by
  have hn : 0 < l.length := List.length_pos.mpr h
  rw [pyGet, if_pos le_rfl]
  rw [show (0 : ℤ).toNat = 0 from rfl, List.getElem?_eq_getElem hn]
  rw [List.head_eq_getElem_zero h]

theorem pyGet_last {α : Type} (l : List α) (h : l ≠ []) :
    pyGet l ((l.length : ℤ) - 1) = some (l.getLast h) := by
  have hn : 0 < l.length := List.length_pos.mpr h
  rw [pyGet, if_pos (by omega)]
  rw [show ((l.length : ℤ) - 1).toNat = l.length - 1 by omega]
  rw [List.getElem?_eq_getElem (by omega), List.getLast_eq_getElem]

theorem pyGet_isSome_iff {α : Type} (l : List α) (i : ℤ) :
    (pyGet l i).isSome ↔ -(l.length : ℤ) ≤ i ∧ i < (l.length : ℤ) := by
  rw [pyGet]
  by_cases h0 : 0 ≤ i
  · rw [if_pos h0]
    by_cases h1 : i.toNat < l.length
    · rw [List.getElem?_eq_getElem h1]
      simp only [Option.isSome_some, true_iff]
      omega
    · rw [List.getElem?_eq_none_iff.mpr (by omega)]
      simp only [Option.isSome_none, Bool.false_eq_true, false_iff]
      omega
  · rw [if_neg h0]
    by_cases h1 : 0 ≤ (l.length : ℤ) + i
    · rw [if_pos h1]
      rw [List.getElem?_eq_getElem (by omega)]
      simp only [Option.isSome_some, true_iff]
      omega
    · rw [if_neg h1]
      simp only [Option.isSome_none, Bool.false_eq_true, false_iff]
      omega

theorem ite_sub_eq_max (x y : ℤ) : (if x > y then x - y else 0) = max (x - y) 0 := by
  rcases le_or_lt x y with h | h
  · rw [if_neg (by omega), max_eq_right (by omega)]
  · rw [if_pos h, max_eq_left (by omega)]

/-! ### Claims about dynamic_allocation -/

/-- C1: request_seat with a class index in [0, n) and a non-negative request
size completes; the decision is Reject exactly when the limit at the
requested class is below the request, in which case the vector is returned
unchanged, and Accept otherwise, in which case every entry is reduced by the
request size and floored at zero. -/
theorem request_seat_correct (bl : List ℤ) (level sc : ℤ) (sn : ℤ)
    (h0 : 0 ≤ sc) (h1 : sc < (bl.length : ℤ)) (h2 : 0 ≤ sn) :
    ∃ res : List ℤ × Status,
      request_seat bl level sc sn = some res ∧
      (bl.getD sc.toNat 0 < sn → res = (bl, Status.Reject)) ∧
      (sn ≤ bl.getD sc.toNat 0 →
        res.2 = Status.Accept ∧ res.1.length = bl.length ∧
        ∀ k, k < bl.length → res.1.getD k 0 = max (bl.getD k 0 - sn) 0) := by
  rw [request_seat, pyGet_of_nonneg bl sc 0 h0 h1, Option.map_some']
  by_cases hv : bl.getD sc.toNat 0 < sn
  · refine ⟨(bl, Status.Reject), ?_, fun _ => rfl,
      fun hc => absurd hv (by omega)⟩
    rw [if_pos hv]
    rfl
  · refine ⟨(bl.map fun item => if item > sn then item - sn else 0,
        Status.Accept), ?_, fun hc => absurd hc hv, fun _ => ?_⟩
    · rw [if_neg hv]
      rfl
    · refine ⟨rfl, by simp, fun k hk => ?_⟩
      have hk2 : k < (bl.map fun item =>
          if item > sn then item - sn else 0).length := by
        simpa using hk
      rw [getD_of_lt _ k 0 hk2, List.getElem_map, ← getD_of_lt bl k 0 hk,
        ite_sub_eq_max]

/-- Witness for C1 at the concrete input booking_limit = [3, 2], class 0,
two requested seat counts checked through one accepting call. -/
theorem request_seat_correct_witness :
    (0 : ℤ) ≤ 0 ∧ (0 : ℤ) < (([3, 2] : List ℤ).length : ℤ) ∧ (0 : ℤ) ≤ 1 ∧
    ∃ res : List ℤ × Status,
      request_seat [3, 2] 5 0 1 = some res ∧
      (([3, 2] : List ℤ).getD (0 : ℤ).toNat 0 < 1 →
        res = ([3, 2], Status.Reject)) ∧
      (1 ≤ ([3, 2] : List ℤ).getD (0 : ℤ).toNat 0 →
        res.2 = Status.Accept ∧ res.1.length = ([3, 2] : List ℤ).length ∧
        ∀ k, k < ([3, 2] : List ℤ).length →
          res.1.getD k 0 = max (([3, 2] : List ℤ).getD k 0 - 1) 0) :=
  ⟨by decide, by decide, by decide,
    request_seat_correct [3, 2] 5 0 1 (by decide) (by decide) (by decide)⟩

/-- C7: get_protection_levels on a nonempty booking-limit vector completes
with a vector of the same length whose entry k equals
bookingLimit[0] - bookingLimit[k+1] for k up to n-2 and whose last entry
equals bookingLimit[0]. -/
theorem get_protection_levels_correct (bl : List ℤ) (levels : ℤ)
    (h : bl ≠ []) :
    ∃ res, get_protection_levels bl levels = some res ∧
      res.length = bl.length ∧
      (∀ k, k + 1 < bl.length →
        res.getD k 0 = bl.getD 0 0 - bl.getD (k + 1) 0) ∧
      res.getD (bl.length - 1) 0 = bl.getD 0 0 := by
  have hl : 0 < bl.length := List.length_pos.mpr h
  have hhead : bl.head h = bl.getD 0 0 := by
    rw [getD_of_lt bl 0 0 hl, List.head_eq_getElem_zero]
  rw [get_protection_levels, pyGet_zero bl h, Option.map_some']
  refine ⟨_, rfl, by simp; omega, fun k hk => ?_, ?_⟩
  · rw [List.getD_eq_getElem?_getD,
      List.getElem?_append_left (by simp; omega), List.getElem?_map,
      List.getElem?_drop, Nat.add_comm 1 k,
      List.getElem?_eq_getElem hk]
    rw [Option.map_some', Option.getD_some, hhead,
      getD_of_lt bl (k + 1) 0 hk]
  · rw [List.getD_eq_getElem?_getD,
      List.getElem?_append_right (by simp),
      List.length_map, List.length_drop]
    rw [show bl.length - 1 - (bl.length - 1) = 0 from by omega]
    rw [List.getElem?_cons_zero, Option.getD_some, hhead]

/-- Witness for C7 at the booking-limit vector [100, 73, 12, 4, 0]. -/
theorem get_protection_levels_correct_witness :
    ([100, 73, 12, 4, 0] : List ℤ) ≠ [] ∧
    ∃ res, get_protection_levels [100, 73, 12, 4, 0] 5 = some res ∧
      res.length = ([100, 73, 12, 4, 0] : List ℤ).length ∧
      (∀ k, k + 1 < ([100, 73, 12, 4, 0] : List ℤ).length →
        res.getD k 0 = ([100, 73, 12, 4, 0] : List ℤ).getD 0 0 -
          ([100, 73, 12, 4, 0] : List ℤ).getD (k + 1) 0) ∧
      res.getD (([100, 73, 12, 4, 0] : List ℤ).length - 1) 0 =
        ([100, 73, 12, 4, 0] : List ℤ).getD 0 0 :=
  ⟨by decide, get_protection_levels_correct [100, 73, 12, 4, 0] 5 (by decide)⟩

/-- C10: the class-count argument is dead in get_protection_levels and in
request_seat: any two values of it give identical results, so the outputs
depend only on the vector, the requested class and the seat count. -/
theorem class_count_ignored (bl : List ℤ) (L1 L2 sc sn : ℤ) :
    get_protection_levels bl L1 = get_protection_levels bl L2 ∧
    request_seat bl L1 sc sn = request_seat bl L2 sc sn :=
  ⟨rfl, rfl⟩

/-- C8 counterexample: on the one-class vector [5] with class index 1 the
source lookup booking_limit[seat_class] fails (IndexError), so evaluation
does not complete with a result, against the claim. -/
theorem request_seat_out_of_range_counterexample :
    request_seat [(5 : ℤ)] 5 1 1 = none := by decide

/-- C8 amended: request_seat completes exactly when the class index lies in
the source-language indexable range from -n to n-1 (negative indices count
from the end); for any class index at or beyond n, or below -n, the lookup
raises IndexError and no result is produced. -/
theorem request_seat_completes_iff (bl : List ℤ) (level sc sn : ℤ) :
    (request_seat bl level sc sn).isSome ↔
      -(bl.length : ℤ) ≤ sc ∧ sc < (bl.length : ℤ) := by
  rw [request_seat, Option.isSome_map']
  exact pyGet_isSome_iff bl sc

/-- C6 counterexample: on the booking-limit vector [100, 73, 72, 4, 0] the
code returns [27, 28, 96, 100, 100] (100 - 72 is 28), not the vector the
docstring example states. -/
theorem protection_levels_scenario_counterexample :
    get_protection_levels [100, 73, 72, 4, 0] 5 ≠
      some [27, 88, 96, 100, 100] := by decide

/-- C6 amended: the worked conversion scenario holds on the booking-limit
vector [100, 73, 12, 4, 0], the vector the demonstration run in the source
actually produces and converts: the result is [27, 88, 96, 100, 100]. -/
theorem protection_levels_scenario_amended :
    get_protection_levels [100, 73, 12, 4, 0] 5 =
      some [27, 88, 96, 100, 100] := by decide

/-- C2: the two conversions are mutually inverse when the class count passed
is the vector length: from any nonempty non-negative protection-level
vector, get_booking_limit followed by get_protection_levels returns it
unchanged, and from any nonempty non-negative booking-limit vector,
get_protection_levels followed by get_booking_limit returns it unchanged. -/
theorem conversion_round_trip (p bl : List ℤ) (hp : p ≠ []) (hbl : bl ≠ [])
    (hpn : ∀ x ∈ p, 0 ≤ x) (hbn : ∀ x ∈ bl, 0 ≤ x) :
    (get_booking_limit p (p.length : ℤ)).bind
      (fun b => get_protection_levels b (p.length : ℤ)) = some p ∧
    (get_protection_levels bl (bl.length : ℤ)).bind
      (fun q => get_booking_limit q (bl.length : ℤ)) = some bl := by
  constructor
  · rw [get_booking_limit, pyGet_last p hp, Option.map_some', Option.some_bind]
    rw [get_protection_levels, pyGet_zero _ (List.cons_ne_nil _ _),
      Option.map_some', List.head_cons, List.drop_succ_cons, List.drop_zero]
    rw [List.map_map]
    have hcomp : ((fun item => p.getLast hp - item) ∘
        fun item => p.getLast hp - item) = id := by
      funext x
      simp
    rw [hcomp, List.map_id, List.dropLast_concat_getLast hp]
  · have hlen : 0 < bl.length := List.length_pos.mpr hbl
    rw [get_protection_levels, pyGet_zero bl hbl, Option.map_some',
      Option.some_bind]
    rw [get_booking_limit]
    have hfirst : pyGet ((bl.drop 1).map (fun item => bl.head hbl - item) ++
        [bl.head hbl]) ((bl.length : ℤ) - 1) = some (bl.head hbl) := by
      rw [pyGet, if_pos (by omega)]
      rw [show ((bl.length : ℤ) - 1).toNat =
        ((bl.drop 1).map (fun item => bl.head hbl - item)).length from by
          simp]
      rw [List.getElem?_concat_length]
    rw [hfirst, Option.map_some', List.dropLast_concat, List.map_map]
    have hcomp : ((fun item => bl.head hbl - item) ∘
        fun item => bl.head hbl - item) = id := by
      funext x
      simp
    rw [hcomp, List.map_id, List.drop_one, List.head_cons_tail]

/-- Witness for C2 at the protection-level vector [27, 88, 96, 100, 100]
and the booking-limit vector [100, 73, 12, 4, 0]. -/
theorem conversion_round_trip_witness :
    ([27, 88, 96, 100, 100] : List ℤ) ≠ [] ∧
    ([100, 73, 12, 4, 0] : List ℤ) ≠ [] ∧
    (∀ x ∈ ([27, 88, 96, 100, 100] : List ℤ), 0 ≤ x) ∧
    (∀ x ∈ ([100, 73, 12, 4, 0] : List ℤ), 0 ≤ x) ∧
    ((get_booking_limit [27, 88, 96, 100, 100]
        (([27, 88, 96, 100, 100] : List ℤ).length : ℤ)).bind
      (fun b => get_protection_levels b
        (([27, 88, 96, 100, 100] : List ℤ).length : ℤ)) =
          some [27, 88, 96, 100, 100] ∧
    (get_protection_levels [100, 73, 12, 4, 0]
        (([100, 73, 12, 4, 0] : List ℤ).length : ℤ)).bind
      (fun q => get_booking_limit q
        (([100, 73, 12, 4, 0] : List ℤ).length : ℤ)) =
          some [100, 73, 12, 4, 0]) :=
  ⟨by decide, by decide, by decide, by decide,
    conversion_round_trip [27, 88, 96, 100, 100] [100, 73, 12, 4, 0]
      (by decide) (by decide) (by decide) (by decide)⟩

/-! ### Claims about emsr -/

/-- C3: emsr_a on vectors of common length n with strictly decreasing
positive prices returns n-1 entries; entry j equals the minimum of capacity
and the sum over i = 0..j of mu[i] + sigma[i] * ppf(1 - prices[j+1]/prices[i]),
for any interpretation ppf of the standard-normal quantile. -/
theorem emsr_a_formula (ppf : ℚ → ℚ) (mu sigma prices : List ℚ) (n : ℕ)
    (cap : ℚ) (hn : 1 ≤ n) (hmu : mu.length = n) (hsig : sigma.length = n)
    (hpr : prices.length = n) (hpos : ∀ x ∈ prices, 0 < x)
    (hdec : prices.Pairwise (fun a b => b < a)) :
    (emsr_a ppf mu sigma prices n cap).length = n - 1 ∧
    ∀ j, j < n - 1 → (emsr_a ppf mu sigma prices n cap).getD j 0 =
      min cap (∑ i in Finset.range (j + 1),
        (mu.getD i 0 + sigma.getD i 0 *
          ppf (1 - prices.getD (j + 1) 0 / prices.getD i 0))) := by
  refine ⟨by simp [emsr_a], fun j hj => ?_⟩
  have hj2 : j < (emsr_a ppf mu sigma prices n cap).length := by
    simp [emsr_a]
    omega
  rw [getD_of_lt _ j 0 hj2]
  simp only [emsr_a]
  rw [List.getElem_map, List.getElem_range, calculate_protect_revenue_a,
    min_comm]
  congr 1

/-- Witness for C3 at mu = [1, 1], sigma = [0, 0], prices = [2, 1], two
classes, capacity 100 and the zero quantile interpretation. -/
theorem emsr_a_formula_witness :
    1 ≤ 2 ∧ ([1, 1] : List ℚ).length = 2 ∧ ([0, 0] : List ℚ).length = 2 ∧
    ([2, 1] : List ℚ).length = 2 ∧ (∀ x ∈ ([2, 1] : List ℚ), 0 < x) ∧
    ([2, 1] : List ℚ).Pairwise (fun a b => b < a) ∧
    ((emsr_a (fun _ => 0) [1, 1] [0, 0] [2, 1] 2 100).length = 2 - 1 ∧
    ∀ j, j < 2 - 1 → (emsr_a (fun _ => 0) [1, 1] [0, 0] [2, 1] 2 100).getD j 0 =
      min 100 (∑ i in Finset.range (j + 1),
        (([1, 1] : List ℚ).getD i 0 + ([0, 0] : List ℚ).getD i 0 *
          (fun _ => (0 : ℚ)) (1 - ([2, 1] : List ℚ).getD (j + 1) 0 /
            ([2, 1] : List ℚ).getD i 0)))) :=
  ⟨by norm_num, by norm_num, by norm_num, by norm_num, by norm_num,
    by norm_num,
    emsr_a_formula (fun _ => 0) [1, 1] [0, 0] [2, 1] 2 100 (by norm_num)
      (by norm_num) (by norm_num) (by norm_num) (by norm_num) (by norm_num)⟩

/-- C4: every entry produced by emsr_a, emsr_b and emsr_revise is at most
the capacity, for all inputs and all interpretations of the quantile and
square-root primitives. -/
theorem emsr_outputs_le_cap (ppf sqrt : ℚ → ℚ) (mu sigma prices : List ℚ)
    (demand_classes : ℕ) (cap alpha : ℚ) :
    (∀ x ∈ emsr_a ppf mu sigma prices demand_classes cap, x ≤ cap) ∧
    (∀ x ∈ emsr_b ppf sqrt mu sigma prices demand_classes cap, x ≤ cap) ∧
    (∀ x ∈ emsr_revise ppf sqrt mu sigma prices demand_classes cap alpha,
      x ≤ cap) := by
  refine ⟨fun x hx => ?_, fun x hx => ?_, fun x hx => ?_⟩
  · rw [emsr_a] at hx
    obtain ⟨j, hj, rfl⟩ := List.mem_map.mp hx
    rw [calculate_protect_revenue_a]
    exact min_le_right _ _
  · rw [emsr_b] at hx
    obtain ⟨j, hj, rfl⟩ := List.mem_map.mp hx
    rw [calculate_protect_revenue_b]
    exact min_le_left _ _
  · rw [emsr_revise] at hx
    obtain ⟨j, hj, rfl⟩ := List.mem_map.mp hx
    rw [calculate_protect_revenue_revise]
    exact min_le_left _ _

/-- Witness for C4 at mu = [1, 1], sigma = [0, 0], prices = [2, 1], two
classes, capacity 100, alpha 0, with zero quantile and square root: each
heuristic returns [1] and 1 is at most 100. -/
theorem emsr_outputs_le_cap_witness :
    (1 : ℚ) ∈ emsr_a (fun _ => 0) [1, 1] [0, 0] [2, 1] 2 100 ∧
    (1 : ℚ) ∈ emsr_b (fun _ => 0) (fun _ => 0) [1, 1] [0, 0] [2, 1] 2 100 ∧
    (1 : ℚ) ∈ emsr_revise (fun _ => 0) (fun _ => 0) [1, 1] [0, 0] [2, 1]
      2 100 0 ∧
    ((1 : ℚ) ≤ 100 ∧ (1 : ℚ) ≤ 100 ∧ (1 : ℚ) ≤ 100) := by
  have hm1 : (1 : ℚ) ∈ emsr_a (fun _ => 0) [1, 1] [0, 0] [2, 1] 2 100 := by
    norm_num [emsr_a, calculate_protect_revenue_a,
      calculate_protect_single_item, List.range_succ, List.getD]
  have hm2 : (1 : ℚ) ∈ emsr_b (fun _ => 0) (fun _ => 0) [1, 1] [0, 0] [2, 1]
      2 100 := by
    norm_num [emsr_b, calculate_protect_revenue_b, precap_b,
      calculate_protect_single_item, List.range']
  have hm3 : (1 : ℚ) ∈ emsr_revise (fun _ => 0) (fun _ => 0) [1, 1] [0, 0]
      [2, 1] 2 100 0 := by
    norm_num [emsr_revise, calculate_protect_revenue_revise, precap_revise,
      calculate_protect_single_item, List.range']
  have h := emsr_outputs_le_cap (fun _ => 0) (fun _ => 0) [1, 1] [0, 0]
    [2, 1] 2 100 0
  exact ⟨hm1, hm2, hm3, h.1 1 hm1, h.2.1 1 hm2, h.2.2 1 hm3⟩

/-- C5 counterexample: with the sign-faithful quantile stand-in ppf_approx,
the identity square root, mu = [1, 1], sigma = [1, 1], prices = [100, 99]
and alpha = 1/2 in [0, 1), the pre-capping revise entry at j = 1 is strictly
below the corresponding pre-capping b entry: the aggregate single-item value
is negative there, and dividing a negative value by (1 - alpha) lowers it. -/
theorem emsr_revise_alpha_counterexample :
    (0 : ℚ) ≤ 1 / 2 ∧ (1 / 2 : ℚ) < 1 ∧
    precap_revise ppf_approx (fun x => x) 1 [1, 1] [1, 1] [100, 99]
      (1 / 2) <
      precap_b ppf_approx (fun x => x) 1 [1, 1] [1, 1] [100, 99] := by
  refine ⟨by norm_num, by norm_num, ?_⟩
  norm_num [precap_revise, precap_b, calculate_protect_single_item,
    ppf_approx, List.getD]

/-- C5 amended: for alpha in [0, 1), the pre-capping revise entry is the
pre-capping b entry divided by (1 - alpha); whenever that aggregate
single-item value is non-negative, the revise entry is at least the b entry
and is non-decreasing in alpha (when it is negative the comparisons flip,
as the counterexample shows). -/
theorem emsr_revise_alpha_amended (ppf sqrt : ℚ → ℚ) (j : ℕ)
    (mu sigma prices : List ℚ) (a a' : ℚ) (h0 : 0 ≤ a) (h1 : a ≤ a')
    (h2 : a' < 1) (hpos : 0 ≤ precap_b ppf sqrt j mu sigma prices) :
    precap_b ppf sqrt j mu sigma prices ≤
      precap_revise ppf sqrt j mu sigma prices a ∧
    precap_revise ppf sqrt j mu sigma prices a ≤
      precap_revise ppf sqrt j mu sigma prices a' := by
  have heq : ∀ b : ℚ, precap_revise ppf sqrt j mu sigma prices b =
      precap_b ppf sqrt j mu sigma prices / (1 - b) := fun b => rfl
  constructor
  · rw [heq, le_div_iff₀ (by linarith)]
    nlinarith [mul_nonneg hpos h0]
  · rw [heq, heq, div_le_div_iff₀ (by linarith) (by linarith)]
    nlinarith [mul_nonneg hpos (sub_nonneg.mpr h1)]

/-- Witness for the amended C5 at mu = [1, 1], sigma = [0, 0],
prices = [2, 1], j = 1, alpha going from 0 to 1/2, zero quantile and square
root: the aggregate single-item value is 1, and 1 is at most 1 and at most
2. -/
theorem emsr_revise_alpha_amended_witness :
    (0 : ℚ) ≤ 0 ∧ (0 : ℚ) ≤ 1 / 2 ∧ (1 / 2 : ℚ) < 1 ∧
    0 ≤ precap_b (fun _ => 0) (fun _ => 0) 1 [1, 1] [0, 0] [2, 1] ∧
    (precap_b (fun _ => 0) (fun _ => 0) 1 [1, 1] [0, 0] [2, 1] ≤
      precap_revise (fun _ => 0) (fun _ => 0) 1 [1, 1] [0, 0] [2, 1] 0 ∧
    precap_revise (fun _ => 0) (fun _ => 0) 1 [1, 1] [0, 0] [2, 1] 0 ≤
      precap_revise (fun _ => 0) (fun _ => 0) 1 [1, 1] [0, 0] [2, 1]
        (1 / 2)) :=
  ⟨by norm_num, by norm_num, by norm_num,
    by norm_num [precap_b, calculate_protect_single_item],
    emsr_revise_alpha_amended (fun _ => 0) (fun _ => 0) 1 [1, 1] [0, 0]
      [2, 1] 0 (1 / 2) (by norm_num) (by norm_num) (by norm_num)
      (by norm_num [precap_b, calculate_protect_single_item])⟩
